import Mathlib

/-!
Shallow embedding of `timetable.py`, a script that parses a CSV task-scheduler
debug trace, groups task intervals per worker (gtid), assigns a color to each
distinct task-identity label, and draws a Gantt-style chart.

Python floats are modelled as rationals (all arithmetic in the script is
exact on the inputs it performs), the CSV rows as lists of strings, Python
exceptions as `Except TraceError`, and the numpy random generator as an
oracle function passed in as a parameter (one draw of three components per
label, mirroring `np.random.rand(3,)`). Python string comparison is
lexicographic on code points, embedded as `strLE` below; `sorted(list(set_))`
is embedded as deduplication followed by a stable insertion sort.
-/

namespace Timetable

/-- Errors corresponding to the Python exceptions the script can raise while
parsing rows (`ValueError` from `int`, `IndexError` from `row[i]`) and while
decoding identity labels (`ValueError` from unpacking the 7-way split). -/
inductive TraceError where
  | malformedRecord : TraceError
  | malformedIdentity : TraceError
deriving DecidableEq, Repr

/-- One CSV row: a list of string fields. -/
abbrev Row := List String

/-- A parsed trace event, the tuple `(int(row[1]), int(row[2]), int(row[3]), row[5])`
appended to `datapoints` in the script. -/
structure TaskEvent where
  workerId : Int
  startUs : Int
  endUs : Int
  label : String
deriving DecidableEq, Repr

/-- Accumulate a decimal digit string into a value; fails on a non-digit. -/
def digitsVal : List Char → Nat → Option Nat
  | [], acc => some acc
  | c :: cs, acc =>
    if c.isDigit then digitsVal cs (acc * 10 + (c.toNat - 48)) else none

/-- A nonempty all-digit character list denotes a natural number. -/
def digitsToNat : List Char → Option Nat
  | [] => none
  | c :: cs => digitsVal (c :: cs) 0

/-- Model of Python `int(s)` on a string: an optional sign followed by a
nonempty run of decimal digits; anything else raises, modelled as `none`. -/
def parseInt (s : String) : Option Int :=
  match s.data with
  | [] => none
  | c :: cs =>
    if c = '-' then (digitsToNat cs).map (fun n => -(n : Int))
    else if c = '+' then (digitsToNat cs).map (fun n => (n : Int))
    else (digitsToNat (c :: cs)).map (fun n => (n : Int))

/-- The significance filter of the parse loop:
`len(row) > 0 and row[0] == "taskdebug"`. -/
def isTaskdebug (row : Row) : Bool :=
  decide (row.head? = some "taskdebug")

/-- Field access `row[i]`; a missing field raises `IndexError`, modelled as a
malformed-record error. -/
def getField (row : Row) (i : Nat) : Except TraceError String :=
  match row[i]? with
  | some s => .ok s
  | none => .error .malformedRecord

/-- `int(row[i])`: field access followed by integer parsing. -/
def intField (row : Row) (i : Nat) : Except TraceError Int :=
  match getField row i with
  | .error err => .error err
  | .ok s =>
    match parseInt s with
    | some v => .ok v
    | none => .error .malformedRecord

/-- Decode one significant row into a `TaskEvent`:
`(int(row[1]), int(row[2]), int(row[3]), row[5])`. -/
def parseRow (row : Row) : Except TraceError TaskEvent :=
  match intField row 1 with
  | .error err => .error err
  | .ok w =>
    match intField row 2 with
    | .error err => .error err
    | .ok s =>
      match intField row 3 with
      | .error err => .error err
      | .ok e =>
        match getField row 5 with
        | .error err => .error err
        | .ok l => .ok ⟨w, s, e, l⟩

/-- The parse loop over all rows: skip rows that are empty or not tagged
`taskdebug`; decode the rest in order; the first decoding failure aborts the
whole run (the Python exception propagates out of the loop). -/
def datapoints : List Row → Except TraceError (List TaskEvent)
  | [] => .ok []
  | row :: rest =>
    if isTaskdebug row then
      match parseRow row with
      | .error err => .error err
      | .ok ev =>
        match datapoints rest with
        | .error err => .error err
        | .ok evs => .ok (ev :: evs)
    else datapoints rest

/-- The set of distinct labels accumulated by `names.add(row[5])` during the
parse loop, expressed over the parsed events (each added label is exactly the
label of the event appended alongside it). -/
def namesSet (evs : List TaskEvent) : Finset String :=
  (evs.map TaskEvent.label).toFinset

/-- Python `s.split(sep)` for a one-character separator, on the character
list of the string: `"" ↦ [""]`, `";" ↦ ["", ""]`, `"a;b" ↦ ["a", "b"]`. -/
def pySplit (sep : Char) : List Char → List (List Char)
  | [] => [[]]
  | c :: cs =>
    if c = sep then [] :: pySplit sep cs
    else
      match pySplit sep cs with
      | [] => [[c]]
      | p :: ps => (c :: p) :: ps

/-- `n.split(sep=";")` as a list of strings. -/
def splitLabel (s : String) : List String :=
  (pySplit ';' s.data).map (fun cs => ⟨cs⟩)

/-- Lexicographic (code-point) order on character lists, the order Python
uses to compare strings. -/
def lexLE : List Char → List Char → Prop
  | [], _ => True
  | _ :: _, [] => False
  | a :: as, b :: bs => a < b ∨ (a = b ∧ lexLE as bs)

instance decLexLE : (as bs : List Char) → Decidable (lexLE as bs)
  | [], bs => .isTrue (show lexLE [] bs from trivial)
  | _ :: _, [] => .isFalse (fun h => h)
  | a :: as, b :: bs =>
    have : Decidable (lexLE as bs) := decLexLE as bs
    inferInstanceAs (Decidable (a < b ∨ (a = b ∧ lexLE as bs)))

/-- Python string comparison `s <= t`: lexicographic on code points. -/
def strLE (s t : String) : Prop := lexLE s.data t.data

instance decStrLE : DecidableRel strLE := fun s t =>
  inferInstanceAs (Decidable (lexLE s.data t.data))

/-- `sorted(list(set_))` for a set of strings accumulated from a list:
deduplicate, then sort lexicographically (insertion sort, stable). -/
def sortStrings (l : List String) : List String :=
  List.insertionSort strLE l.dedup

/-- `sorted(list(set_))` for a set of integers accumulated from a list. -/
def sortInts (l : List Int) : List Int :=
  List.insertionSort (fun a b : Int => a ≤ b) l.dedup

/-- `names = list(names); names.sort()`: the sorted list of distinct labels
seen by the parse loop. -/
def sortedNames (evs : List TaskEvent) : List String :=
  sortStrings (evs.map TaskEvent.label)

/-- `n.split(sep=";")` unpacked as
`_blank, _file, func, line, col, _blanc, end`: exactly seven parts are
required; any other count raises, modelled as a malformed-identity error. -/
def decodeLabel (s : String) :
    Except TraceError (String × String × String × String × String × String × String) :=
  match splitLabel s with
  | [b1, file, func, line, col, b2, e] => .ok (b1, file, func, line, col, b2, e)
  | _ => .error .malformedIdentity

/-- `int(s)` where failure aborts the run. -/
def intOf (s : String) : Except TraceError Int :=
  match parseInt s with
  | some v => .ok v
  | none => .error .malformedRecord

/-- The per-label step of the axis-accumulation loop: decode the label and
parse its line and end-marker fields as integers. -/
def decodeAxes (n : String) : Except TraceError (String × Int × Int) :=
  match decodeLabel n with
  | .error err => .error err
  | .ok (_b1, _file, func, line, _col, _b2, e) =>
    match intOf line with
    | .error err => .error err
    | .ok li =>
      match intOf e with
      | .error err => .error err
      | .ok ei => .ok (func, li, ei)

/-- Run `decodeAxes` over every distinct label, aborting at the first failure
(the loop body raises out of the `for n in names` loop). -/
def axesTriples : List String → Except TraceError (List (String × Int × Int))
  | [] => .ok []
  | n :: ns =>
    match decodeAxes n with
    | .error err => .error err
    | .ok t =>
      match axesTriples ns with
      | .error err => .error err
      | .ok ts => .ok (t :: ts)

/-- The three sorted deduplicated axis value sets
`funcs = sorted(list(funcs))`, `lines = sorted(list(lines))`,
`ends = sorted(list(ends))` built from the set-accumulation loop. -/
def axesOf (names : List String) :
    Except TraceError (List String × List Int × List Int) :=
  match axesTriples names with
  | .error err => .error err
  | .ok ts =>
    .ok (sortStrings (ts.map (fun t => t.1)),
         sortInts (ts.map (fun t => t.2.1)),
         sortInts (ts.map (fun t => t.2.2)))

/-- `perc(a, aa)`: rank-normalize `a` within the sorted deduplicated value
list `aa`; a singleton axis yields the fixed constant `0.1`. -/
def perc {α : Type} [DecidableEq α] (a : α) (aa : List α) : ℚ :=
  if aa.length = 1 then 1/10
  else (aa.indexOf a : ℚ) / ((aa.length : ℚ) - 1)

/-- `scale_factor = 1` (a no-op at its default value). -/
def scale_factor : ℚ := 1

/-- `get_color(func, line, end)`: the three axis ranks become the R, G, B
channels after the (identity, at the default scale factor) contrast
transformation, with alpha fixed at `1.0`. -/
def get_color (funcs : List String) (lines ends : List Int)
    (func : String) (line e : Int) : List ℚ :=
  let r := perc func funcs
  let g := perc line lines
  let b := perc e ends
  let addi := 1/2 - (1/2) / scale_factor
  [r / scale_factor + addi, g / scale_factor + addi, b / scale_factor + addi, 1]

/-- The body of the mapping loop for one label `n`: decode it, and either draw
a random three-component color (when the line and column fields are both the
literal `"0"`) or compute the feature-derived color. `rand` is the oracle
standing for `np.random.rand(3,)`, one draw per label. -/
def colorFor (rand : String → ℚ × ℚ × ℚ) (funcs : List String)
    (lines ends : List Int) (n : String) : Except TraceError (List ℚ) :=
  match decodeLabel n with
  | .error err => .error err
  | .ok (_b1, _file, func, line, col, _b2, e) =>
    if line = "0" ∧ col = "0" then
      .ok [(rand n).1, (rand n).2.1, (rand n).2.2]
    else
      match intOf line with
      | .error err => .error err
      | .ok li =>
        match intOf e with
        | .error err => .error err
        | .ok ei => .ok (get_color funcs lines ends func li ei)

/-- The mapping loop `for n in names: mapping[n] = ...` as an association
list in loop order (the label list is deduplicated, so first-match lookup
agrees with the Python dict). -/
def buildMapping (rand : String → ℚ × ℚ × ℚ) (funcs : List String)
    (lines ends : List Int) : List String → Except TraceError (List (String × List ℚ))
  | [] => .ok []
  | n :: ns =>
    match colorFor rand funcs lines ends n with
    | .error err => .error err
    | .ok c =>
      match buildMapping rand funcs lines ends ns with
      | .error err => .error err
      | .ok rest => .ok ((n, c) :: rest)

/-- Dictionary lookup `mapping[n]` on the association list. -/
def lookupColor (n : String) : List (String × List ℚ) → Option (List ℚ)
  | [] => none
  | (k, v) :: rest => if n = k then some v else lookupColor n rest

/-- The whole color-assignment stage run on the parsed events: build the
sorted distinct-label list, the three axis value sets, then the mapping. -/
def fullColorMap (rand : String → ℚ × ℚ × ℚ) (evs : List TaskEvent) :
    Except TraceError (List (String × List ℚ)) :=
  match axesOf (sortedNames evs) with
  | .error err => .error err
  | .ok (funcs, lines, ends) => buildMapping rand funcs lines ends (sortedNames evs)

/-- The sort-and-group key `lambda x: (x[0], x[3])`: worker id and label. -/
def eventKey (ev : TaskEvent) : Int × String := (ev.workerId, ev.label)

/-- Lexicographic order on `(workerId, label)` keys, as Python compares the
tuples `(x[0], x[3])`. -/
def keyLE (a b : Int × String) : Prop :=
  a.1 < b.1 ∨ (a.1 = b.1 ∧ strLE a.2 b.2)

/-- Strict lexicographic order on `(workerId, label)` keys. -/
def keyLT (a b : Int × String) : Prop :=
  a.1 < b.1 ∨ (a.1 = b.1 ∧ strLE a.2 b.2 ∧ a.2 ≠ b.2)

instance decKeyLE : DecidableRel keyLE := fun a b =>
  inferInstanceAs (Decidable (a.1 < b.1 ∨ (a.1 = b.1 ∧ strLE a.2 b.2)))

/-- The comparison used by `datapoints.sort(key=lambda x: (x[0], x[3]))`. -/
def evLE (a b : TaskEvent) : Prop := keyLE (eventKey a) (eventKey b)

instance decEvLE : DecidableRel evLE := fun a b =>
  inferInstanceAs (Decidable (keyLE (eventKey a) (eventKey b)))

/-- `datapoints.sort(key=lambda x: (x[0], x[3]))`: a stable sort by the
grouping key (insertion sort is stable, like Python Timsort). -/
def sortEvents (evs : List TaskEvent) : List TaskEvent :=
  List.insertionSort evLE evs

/-- `itertools.groupby(_, lambda x: (x[0], x[3]))`: partition a list into
maximal runs of consecutive elements sharing a key, pairing each run with
its key. -/
def groupRuns : List TaskEvent → List ((Int × String) × List TaskEvent)
  | [] => []
  | ev :: rest =>
    match groupRuns rest with
    | [] => [(eventKey ev, [ev])]
    | (k, g) :: gs =>
      if eventKey ev = k then (k, ev :: g) :: gs
      else (eventKey ev, [ev]) :: (k, g) :: gs

/-- Line 33 of the script: sort the events by `(workerId, label)` and group
consecutive equal-key runs. -/
def groups (evs : List TaskEvent) : List ((Int × String) × List TaskEvent) :=
  groupRuns (sortEvents evs)

/-- The sub-row fractional offset `names.index(name) / (len(names)*4)` added
to the integer row index in the `broken_barh` call. -/
def subRowOffset (names : List String) (name : String) : ℚ :=
  (names.indexOf name : ℚ) / ((names.length : ℚ) * 4)

/-- The bar height `0.75` passed to `broken_barh`. -/
def barHeight : ℚ := 3/4

/-! ### Order facts about the lexicographic string comparison -/

theorem lexLE_refl : ∀ as : List Char, lexLE as as
  | [] => trivial
  | _ :: as => Or.inr ⟨rfl, lexLE_refl as⟩

theorem lexLE_total : ∀ as bs : List Char, lexLE as bs ∨ lexLE bs as
  | [], _ => Or.inl trivial
  | _ :: _, [] => Or.inr trivial
  | a :: as, b :: bs => by
    rcases lt_trichotomy a b with h | h | h
    · exact Or.inl (Or.inl h)
    · rcases lexLE_total as bs with ih | ih
      · exact Or.inl (Or.inr ⟨h, ih⟩)
      · exact Or.inr (Or.inr ⟨h.symm, ih⟩)
    · exact Or.inr (Or.inl h)

theorem lexLE_trans : ∀ as bs cs : List Char, lexLE as bs → lexLE bs cs → lexLE as cs
  | [], _, _, _, _ => trivial
  | _ :: _, [], _, h, _ => absurd h (fun hh => hh)
  | _ :: _, _ :: _, [], _, h => absurd h (fun hh => hh)
  | a :: as, b :: bs, c :: cs, h1, h2 => by
    rcases h1 with hab | ⟨rfl, h1⟩
    · rcases h2 with hbc | ⟨rfl, h2⟩
      · exact Or.inl (lt_trans hab hbc)
      · exact Or.inl hab
    · rcases h2 with hbc | ⟨rfl, h2⟩
      · exact Or.inl hbc
      · exact Or.inr ⟨rfl, lexLE_trans as bs cs h1 h2⟩

theorem lexLE_antisymm : ∀ as bs : List Char, lexLE as bs → lexLE bs as → as = bs
  | [], [], _, _ => rfl
  | [], _ :: _, _, h => absurd h (fun hh => hh)
  | _ :: _, [], h, _ => absurd h (fun hh => hh)
  | a :: as, b :: bs, h1, h2 => by
    rcases h1 with hab | ⟨rfl, h1⟩
    · rcases h2 with hba | ⟨heq, h2⟩
      · exact absurd hba (lt_asymm hab)
      · exact absurd hab (heq ▸ lt_irrefl a)
    · rcases h2 with hba | ⟨heq, h2⟩
      · exact absurd hba (lt_irrefl a)
      · rw [lexLE_antisymm as bs h1 h2]

instance : IsTotal String strLE :=
  ⟨fun a b => lexLE_total a.data b.data⟩

instance : IsTrans String strLE :=
  ⟨fun a b c => lexLE_trans a.data b.data c.data⟩

instance : IsAntisymm String strLE :=
  ⟨fun a b h1 h2 => by
    cases a
    cases b
    exact congrArg String.mk (lexLE_antisymm _ _ h1 h2)⟩

instance : IsRefl String strLE :=
  ⟨fun a => lexLE_refl a.data⟩

/-- Two lists with the same set of distinct elements sort-deduplicate to the
same list. -/
theorem sortDedup_eq_of_toFinset_eq {α : Type} [DecidableEq α]
    (r : α → α → Prop) [DecidableRel r] [IsTotal α r] [IsTrans α r] [IsAntisymm α r]
    {l1 l2 : List α} (h : l1.toFinset = l2.toFinset) :
    List.insertionSort r l1.dedup = List.insertionSort r l2.dedup := by
  apply List.eq_of_perm_of_sorted ?hp (List.sorted_insertionSort r _)
    (List.sorted_insertionSort r _)
  refine (List.perm_insertionSort r _).trans (.trans ?hd (List.perm_insertionSort r _).symm)
  exact List.toFinset_eq_iff_perm_dedup.mp h

theorem sortStrings_eq_of_toFinset_eq {l1 l2 : List String}
    (h : l1.toFinset = l2.toFinset) : sortStrings l1 = sortStrings l2 :=
  sortDedup_eq_of_toFinset_eq strLE h

/-! ### Order facts about the sort-and-group key -/

theorem keyLE_total (a b : Int × String) : keyLE a b ∨ keyLE b a := by
  rcases lt_trichotomy a.1 b.1 with h | h | h
  · exact Or.inl (Or.inl h)
  · rcases lexLE_total a.2.data b.2.data with hs | hs
    · exact Or.inl (Or.inr ⟨h, hs⟩)
    · exact Or.inr (Or.inr ⟨h.symm, hs⟩)
  · exact Or.inr (Or.inl h)

theorem keyLE_trans (a b c : Int × String) :
    keyLE a b → keyLE b c → keyLE a c := by
  rintro (h1 | ⟨h1, hs1⟩) (h2 | ⟨h2, hs2⟩)
  · exact Or.inl (lt_trans h1 h2)
  · exact Or.inl (h2 ▸ h1)
  · exact Or.inl (h1 ▸ h2)
  · exact Or.inr ⟨h1.trans h2, lexLE_trans _ _ _ hs1 hs2⟩

theorem keyLT_of_keyLE_ne (a b : Int × String) (h : keyLE a b) (hne : a ≠ b) :
    keyLT a b := by
  rcases h with h | ⟨heq, hs⟩
  · exact Or.inl h
  · refine Or.inr ⟨heq, hs, fun hstr => hne ?_⟩
    exact Prod.ext heq hstr

theorem keyLT_ne (a b : Int × String) (h : keyLT a b) : a ≠ b := by
  rcases h with h | ⟨heq, hs, hne⟩
  · exact fun hab => absurd (hab ▸ h) (lt_irrefl a.1)
  · exact fun hab => hne (congrArg Prod.snd hab)

theorem strLE_antisymm (s t : String) (h1 : strLE s t) (h2 : strLE t s) : s = t := by
  cases s
  cases t
  exact congrArg String.mk (lexLE_antisymm _ _ h1 h2)

theorem keyLT_trans (a b c : Int × String) :
    keyLT a b → keyLT b c → keyLT a c := by
  rintro (h1 | ⟨h1, hs1, hne1⟩) (h2 | ⟨h2, hs2, hne2⟩)
  · exact Or.inl (lt_trans h1 h2)
  · exact Or.inl (h2 ▸ h1)
  · exact Or.inl (h1 ▸ h2)
  · refine Or.inr ⟨h1.trans h2, lexLE_trans _ _ _ hs1 hs2, fun hac => ?_⟩
    exact hne1 (strLE_antisymm _ _ hs1 (hac ▸ hs2))

instance : IsTotal TaskEvent evLE :=
  ⟨fun a b => keyLE_total (eventKey a) (eventKey b)⟩

instance : IsTrans TaskEvent evLE :=
  ⟨fun a b c => keyLE_trans (eventKey a) (eventKey b) (eventKey c)⟩

instance : IsTrans (Int × String) keyLT :=
  ⟨keyLT_trans⟩

/-! ### Grouping lemmas -/

/-- The first group of a grouped nonempty list carries the key of the head element. -/
theorem groupRuns_cons_head (x : TaskEvent) (xs : List TaskEvent) :
    ∃ g gs, groupRuns (x :: xs) = (eventKey x, g) :: gs := by
  rw [groupRuns]
  cases hr : groupRuns xs with
  | nil => exact ⟨[x], [], rfl⟩
  | cons kg gs =>
    obtain ⟨k, g⟩ := kg
    dsimp only
    by_cases h : eventKey x = k
    · subst h
      exact ⟨x :: g, gs, by rw [if_pos rfl]⟩
    · exact ⟨[x], (k, g) :: gs, by rw [if_neg h]⟩

/-- On a list sorted by the grouping key, the keys of consecutive groups are
strictly increasing. -/
theorem chain_groupRuns_keys : ∀ l : List TaskEvent, List.Sorted evLE l →
    List.Chain' keyLT ((groupRuns l).map Prod.fst)
  | [], _ => by simp [groupRuns]
  | x :: xs, hs => by
    obtain ⟨hx, hxs⟩ := List.sorted_cons.mp hs
    have ih := chain_groupRuns_keys xs hxs
    rw [groupRuns]
    cases hr : groupRuns xs with
    | nil => simp
    | cons kg gs =>
      obtain ⟨k, g⟩ := kg
      rw [hr] at ih
      dsimp only
      by_cases h : eventKey x = k
      · rw [if_pos h]
        simpa using ih
      · rw [if_neg h]
        have hxk : keyLE (eventKey x) k := by
          cases xs with
          | nil => simp [groupRuns] at hr
          | cons y ys =>
            obtain ⟨g0, gs0, h0⟩ := groupRuns_cons_head y ys
            rw [h0] at hr
            injection hr with hr1 hr2
            have hky : eventKey y = k := congrArg Prod.fst hr1
            rw [← hky]
            exact hx y (List.mem_cons_self y ys)
        have hlt : keyLT (eventKey x) k := keyLT_of_keyLE_ne _ _ hxk h
        simp only [List.map_cons]
        rw [List.chain'_cons]
        exact ⟨hlt, by simpa using ih⟩

theorem workerId_le_of_keyLT {a b : Int × String} (h : keyLT a b) : a.1 ≤ b.1 := by
  rcases h with h | ⟨heq, _⟩
  · exact le_of_lt h
  · exact le_of_eq heq

/-! ### Parse-stage lemmas -/

/-- The parse loop equals parsing exactly the filtered significant rows. -/
theorem datapoints_eq_filter_mapM (rows : List Row) :
    datapoints rows = (rows.filter (fun r => isTaskdebug r)).mapM parseRow := by
  induction rows with
  | nil => rfl
  | cons row rest ih =>
    by_cases h : isTaskdebug row
    · rw [List.filter_cons_of_pos (by simpa using h), List.mapM_cons]
      rw [datapoints]
      simp only [h, if_true, ih]
      cases parseRow row <;> cases (rest.filter (fun r => isTaskdebug r)).mapM parseRow <;>
        simp [Bind.bind, Except.bind, Pure.pure, Except.pure]
    · rw [List.filter_cons_of_neg (by simpa using h), datapoints]
      simp only [h, Bool.false_eq_true, if_false]
      exact ih

/-- A successful `mapM parseRow` produces one event per row. -/
theorem mapM_parseRow_length : ∀ (rs : List Row) (evs : List TaskEvent),
    rs.mapM parseRow = .ok evs → evs.length = rs.length
  | [], evs, h => by
    rw [List.mapM_nil] at h
    cases h
    rfl
  | r :: rs, evs, h => by
    rw [List.mapM_cons] at h
    cases hp : parseRow r with
    | error e =>
      rw [hp] at h
      simp [Bind.bind, Except.bind] at h
    | ok ev =>
      rw [hp] at h
      cases hm : rs.mapM parseRow with
      | error e =>
        rw [hm] at h
        simp [Bind.bind, Except.bind] at h
      | ok evs2 =>
        rw [hm] at h
        simp only [Bind.bind, Except.bind, Pure.pure, Except.pure, Except.ok.injEq] at h
        rw [← h]
        simp [mapM_parseRow_length rs evs2 hm]

/-- If some significant row fails to decode, the whole parse aborts. -/
theorem datapoints_error_of_bad : ∀ (rows : List Row) (row : Row), row ∈ rows →
    isTaskdebug row = true → ∀ err : TraceError, parseRow row = .error err →
    ∃ e, datapoints rows = .error e
  | [], _, hmem, _, _, _ => absurd hmem (List.not_mem_nil _)
  | r :: rest, row, hmem, hsig, err, hbad => by
    rcases List.mem_cons.mp hmem with heq | hmem2
    · subst heq
      refine ⟨err, ?_⟩
      rw [datapoints]
      simp [hsig, hbad]
    · by_cases h : isTaskdebug r
      · rcases datapoints_error_of_bad rest row hmem2 hsig err hbad with ⟨e, he⟩
        rw [datapoints]
        simp only [h, if_true]
        cases hp : parseRow r with
        | error e2 => exact ⟨e2, rfl⟩
        | ok ev =>
          rw [he]
          exact ⟨e, rfl⟩
      · rw [datapoints]
        simp only [h, Bool.false_eq_true, if_false]
        exact datapoints_error_of_bad rest row hmem2 hsig err hbad

/-! ### Mapping lemmas -/

/-- A successful mapping build contains, for each distinct label, exactly the
color its loop iteration computed. -/
theorem lookupColor_buildMapping (rand : String → ℚ × ℚ × ℚ)
    (funcs : List String) (lines ends : List Int) :
    ∀ (names : List String) (m : List (String × List ℚ)),
      buildMapping rand funcs lines ends names = .ok m →
      names.Nodup → ∀ n, n ∈ names →
      ∃ c, colorFor rand funcs lines ends n = .ok c ∧ lookupColor n m = some c
  | [], _, _, _, n, hmem => absurd hmem (List.not_mem_nil n)
  | n2 :: ns, m, hok, hnd, n, hmem => by
    rw [buildMapping] at hok
    cases hc : colorFor rand funcs lines ends n2 with
    | error err =>
      rw [hc] at hok
      cases hok
    | ok c =>
      rw [hc] at hok
      cases hb : buildMapping rand funcs lines ends ns with
      | error err =>
        rw [hb] at hok
        cases hok
      | ok rest =>
        rw [hb] at hok
        injection hok with hok
        subst hok
        rcases List.mem_cons.mp hmem with rfl | hmem2
        · exact ⟨c, hc, by rw [lookupColor, if_pos rfl]⟩
        · have hne : n ≠ n2 := fun heq => (List.nodup_cons.mp hnd).1 (heq ▸ hmem2)
          obtain ⟨c2, hc2, hl⟩ := lookupColor_buildMapping rand funcs lines ends ns rest
            hb (List.nodup_cons.mp hnd).2 n hmem2
          refine ⟨c2, hc2, ?_⟩
          rw [lookupColor, if_neg hne]
          exact hl

/-- A label that fails to decode makes the whole mapping build fail. -/
theorem buildMapping_error_of_bad (rand : String → ℚ × ℚ × ℚ)
    (funcs : List String) (lines ends : List Int) :
    ∀ (names : List String) (s : String), s ∈ names →
      decodeLabel s = .error .malformedIdentity →
      ∀ m, buildMapping rand funcs lines ends names ≠ .ok m
  | [], s, hmem, _, _ => absurd hmem (List.not_mem_nil s)
  | n2 :: ns, s, hmem, hbad, m => by
    rw [buildMapping]
    rcases List.mem_cons.mp hmem with rfl | hmem2
    · rw [colorFor, hbad]
      intro h
      cases h
    · cases hc : colorFor rand funcs lines ends n2 with
      | error err =>
        intro h
        cases h
      | ok c =>
        cases hb : buildMapping rand funcs lines ends ns with
        | error err =>
          intro h
          cases h
        | ok rest =>
          exact absurd hb
            (buildMapping_error_of_bad rand funcs lines ends ns s hmem2 hbad rest)

/-- The feature-derived branch of the mapping loop never consults the random
oracle. -/
theorem colorFor_rand_irrel (rand1 rand2 : String → ℚ × ℚ × ℚ)
    (funcs : List String) (lines ends : List Int)
    (n b1 file func line col b2 e : String)
    (hd : decodeLabel n = .ok (b1, file, func, line, col, b2, e))
    (hnz : ¬(line = "0" ∧ col = "0")) :
    colorFor rand1 funcs lines ends n = colorFor rand2 funcs lines ends n := by
  rw [colorFor, colorFor, hd]
  dsimp only
  rw [if_neg hnz, if_neg hnz]

/-- Two mapping builds over the same label list and axes that differ only in
the random oracle agree on every label whose color step is oracle-free. -/
theorem lookupColor_rand_irrel (rand1 rand2 : String → ℚ × ℚ × ℚ)
    (funcs : List String) (lines ends : List Int) (n : String)
    (hcf : colorFor rand1 funcs lines ends n = colorFor rand2 funcs lines ends n) :
    ∀ (ns : List String) (m1 m2 : List (String × List ℚ)),
      buildMapping rand1 funcs lines ends ns = .ok m1 →
      buildMapping rand2 funcs lines ends ns = .ok m2 →
      lookupColor n m1 = lookupColor n m2
  | [], m1, m2, h1, h2 => by
    cases h1
    cases h2
    rfl
  | n2 :: ns, m1, m2, h1, h2 => by
    rw [buildMapping] at h1 h2
    cases hc1 : colorFor rand1 funcs lines ends n2 with
    | error err =>
      rw [hc1] at h1
      cases h1
    | ok c1 =>
      rw [hc1] at h1
      cases hb1 : buildMapping rand1 funcs lines ends ns with
      | error err =>
        rw [hb1] at h1
        cases h1
      | ok rest1 =>
        rw [hb1] at h1
        injection h1 with h1
        subst h1
        cases hc2 : colorFor rand2 funcs lines ends n2 with
        | error err =>
          rw [hc2] at h2
          cases h2
        | ok c2 =>
          rw [hc2] at h2
          cases hb2 : buildMapping rand2 funcs lines ends ns with
          | error err =>
            rw [hb2] at h2
            cases h2
          | ok rest2 =>
            rw [hb2] at h2
            injection h2 with h2
            subst h2
            rw [lookupColor, lookupColor]
            by_cases hn : n = n2
            · rw [if_pos hn, if_pos hn]
              subst hn
              rw [hcf] at hc1
              rw [hc1] at hc2
              injection hc2 with hc2
              rw [hc2]
            · rw [if_neg hn, if_neg hn]
              exact lookupColor_rand_irrel rand1 rand2 funcs lines ends n hcf
                ns rest1 rest2 hb1 hb2

/-- The keys of a successfully built mapping are exactly the label list, in
order. -/
theorem buildMapping_keys (rand : String → ℚ × ℚ × ℚ)
    (funcs : List String) (lines ends : List Int) :
    ∀ (names : List String) (m : List (String × List ℚ)),
      buildMapping rand funcs lines ends names = .ok m →
      m.map Prod.fst = names
  | [], m, hok => by
    cases hok
    rfl
  | n2 :: ns, m, hok => by
    rw [buildMapping] at hok
    cases hc : colorFor rand funcs lines ends n2 with
    | error err =>
      rw [hc] at hok
      cases hok
    | ok c =>
      rw [hc] at hok
      cases hb : buildMapping rand funcs lines ends ns with
      | error err =>
        rw [hb] at hok
        cases hok
      | ok rest =>
        rw [hb] at hok
        injection hok with hok
        subst hok
        simp [buildMapping_keys rand funcs lines ends ns rest hb]

/-- Every label of the list fed to a successful mapping build has an entry. -/
theorem lookupColor_isSome_of_mem (rand : String → ℚ × ℚ × ℚ)
    (funcs : List String) (lines ends : List Int) :
    ∀ (names : List String) (m : List (String × List ℚ)),
      buildMapping rand funcs lines ends names = .ok m →
      ∀ n, n ∈ names → ∃ c, lookupColor n m = some c
  | [], _, _, n, hmem => absurd hmem (List.not_mem_nil n)
  | n2 :: ns, m, hok, n, hmem => by
    rw [buildMapping] at hok
    cases hc : colorFor rand funcs lines ends n2 with
    | error err =>
      rw [hc] at hok
      cases hok
    | ok c =>
      rw [hc] at hok
      cases hb : buildMapping rand funcs lines ends ns with
      | error err =>
        rw [hb] at hok
        cases hok
      | ok rest =>
        rw [hb] at hok
        injection hok with hok
        subst hok
        by_cases hn : n = n2
        · exact ⟨c, by rw [lookupColor, if_pos hn]⟩
        · have hmem2 : n ∈ ns := by
            rcases List.mem_cons.mp hmem with heq | hm
            · exact absurd heq hn
            · exact hm
          obtain ⟨c2, hl⟩ :=
            lookupColor_isSome_of_mem rand funcs lines ends ns rest hb n hmem2
          refine ⟨c2, ?_⟩
          rw [lookupColor, if_neg hn]
          exact hl

/-- The label of a parsed event appears in the sorted distinct-label list. -/
theorem mem_sortedNames_of_mem (evs : List TaskEvent) (ev : TaskEvent)
    (h : ev ∈ evs) : ev.label ∈ sortedNames evs := by
  unfold sortedNames sortStrings
  rw [List.Perm.mem_iff (List.perm_insertionSort strLE _)]
  rw [List.mem_dedup]
  exact List.mem_map_of_mem TaskEvent.label h

/-! ### Claim theorems -/

/-- C1: the parsed event sequence is exactly the decoding of the rows that
are non-empty and whose first field is the literal tag `taskdebug`: the
parse loop equals filtering to significant rows followed by decoding them,
and on success there is exactly one event per significant row (so empty rows
and rows with any other first field contribute no event). -/
theorem c1_parse_filter (rows : List Row) :
    datapoints rows = (rows.filter (fun r => isTaskdebug r)).mapM parseRow ∧
    ∀ evs, datapoints rows = .ok evs →
      evs.length = (rows.filter (fun r => isTaskdebug r)).length := by
  refine ⟨datapoints_eq_filter_mapM rows, fun evs h => ?_⟩
  rw [datapoints_eq_filter_mapM rows] at h
  exact mapM_parseRow_length _ _ h

/-- Witness for C1: one significant row, one irrelevant row, one empty row. -/
theorem c1_parse_filter_witness :
    datapoints
        [["taskdebug", "1", "100", "200", "0", "x"],
         ["other", "9", "9", "9", "9", "y"], []] =
      (([["taskdebug", "1", "100", "200", "0", "x"],
         ["other", "9", "9", "9", "9", "y"], []] : List Row).filter
          (fun r => isTaskdebug r)).mapM parseRow ∧
    ([⟨1, 100, 200, "x"⟩] : List TaskEvent).length =
      (([["taskdebug", "1", "100", "200", "0", "x"],
         ["other", "9", "9", "9", "9", "y"], []] : List Row).filter
          (fun r => isTaskdebug r)).length :=
  ⟨(c1_parse_filter _).1, (c1_parse_filter _).2 [⟨1, 100, 200, "x"⟩] rfl⟩

/-- C7: a significant (`taskdebug`) row whose numeric fields do not parse as
integers, or whose numeric or label fields are missing, makes the whole run
abort with an error: the parse produces no event list at all. -/
theorem c7_malformed_fatal (rows : List Row) (row : Row) (hmem : row ∈ rows)
    (hsig : isTaskdebug row = true) (err : TraceError)
    (hbad : parseRow row = .error err) :
    (∃ e, datapoints rows = .error e) ∧ ∀ evs, datapoints rows ≠ .ok evs := by
  rcases datapoints_error_of_bad rows row hmem hsig err hbad with ⟨e, he⟩
  refine ⟨⟨e, he⟩, fun evs hok => ?_⟩
  rw [he] at hok
  cases hok

/-- C4: for every distinct label whose decoded line and column fields are
both the literal string `"0"`, the color assigner skips the feature-derived
formula and stores the random draw for that label; for every other label it
stores the feature-derived color computed by `get_color` from the decoded
`(function, line, endMarker)` fields. -/
theorem c4_random_fallback (rand : String → ℚ × ℚ × ℚ) (funcs : List String)
    (lines ends : List Int) (names : List String) (hnd : names.Nodup)
    (n : String) (hmem : n ∈ names)
    (b1 file func line col b2 e : String)
    (hd : decodeLabel n = .ok (b1, file, func, line, col, b2, e))
    (m : List (String × List ℚ))
    (hok : buildMapping rand funcs lines ends names = .ok m) :
    (line = "0" ∧ col = "0" →
      lookupColor n m = some [(rand n).1, (rand n).2.1, (rand n).2.2]) ∧
    (¬(line = "0" ∧ col = "0") →
      ∃ li ei, intOf line = .ok li ∧ intOf e = .ok ei ∧
        lookupColor n m = some (get_color funcs lines ends func li ei)) := by
  obtain ⟨c, hc, hl⟩ :=
    lookupColor_buildMapping rand funcs lines ends names m hok hnd n hmem
  rw [colorFor, hd] at hc
  dsimp only at hc
  by_cases hz : line = "0" ∧ col = "0"
  · rw [if_pos hz] at hc
    injection hc with hc
    exact ⟨fun _ => by rw [hl, ← hc], fun hcon => absurd hz hcon⟩
  · rw [if_neg hz] at hc
    refine ⟨fun hcon => absurd hcon hz, fun _ => ?_⟩
    cases hli : intOf line with
    | error err =>
      rw [hli] at hc
      cases hc
    | ok li =>
      rw [hli] at hc
      cases hei : intOf e with
      | error err =>
        rw [hei] at hc
        cases hc
      | ok ei =>
        rw [hei] at hc
        injection hc with hc
        exact ⟨li, ei, rfl, rfl, by rw [hl, ← hc]⟩

/-- Witness for C4: a label with line and column both `"0"` receives the
random draw. -/
theorem c4_random_fallback_witness :
    (("0" : String) = "0" ∧ ("0" : String) = "0" →
      lookupColor ";f;g;0;0;;5" [(";f;g;0;0;;5", [0, 1, 0])] =
        some [((fun _ : String => ((0 : ℚ), (1 : ℚ), (0 : ℚ))) ";f;g;0;0;;5").1,
              ((fun _ : String => ((0 : ℚ), (1 : ℚ), (0 : ℚ))) ";f;g;0;0;;5").2.1,
              ((fun _ : String => ((0 : ℚ), (1 : ℚ), (0 : ℚ))) ";f;g;0;0;;5").2.2]) ∧
    (¬(("0" : String) = "0" ∧ ("0" : String) = "0") →
      ∃ li ei, intOf "0" = .ok li ∧ intOf "5" = .ok ei ∧
        lookupColor ";f;g;0;0;;5" [(";f;g;0;0;;5", [0, 1, 0])] =
          some (get_color ["g"] [0] [5] "g" li ei)) :=
  c4_random_fallback (fun _ => (0, 1, 0)) ["g"] [0] [5] [";f;g;0;0;;5"]
    (by decide) ";f;g;0;0;;5" (by decide) "" "f" "g" "0" "0" "" "5" rfl
    [(";f;g;0;0;;5", [0, 1, 0])] rfl

/-- C6: decoding a label splits it on `;` and fails with a malformed-identity
error exactly when the split does not yield 7 parts; a label with fewer or
more than 7 semicolon-delimited fields is never decoded, and its presence in
the distinct-label list means no color mapping is produced at all. -/
theorem c6_seven_fields (s : String) :
    ((splitLabel s).length ≠ 7 → decodeLabel s = .error .malformedIdentity) ∧
    ((splitLabel s).length = 7 → ∃ t, decodeLabel s = .ok t) ∧
    (∀ names, s ∈ names → (splitLabel s).length ≠ 7 →
      ∀ rand funcs lines ends m,
        buildMapping rand funcs lines ends names ≠ .ok m) := by
  have hdec : (splitLabel s).length ≠ 7 →
      decodeLabel s = .error .malformedIdentity := by
    rw [decodeLabel]
    generalize splitLabel s = l
    intro hlen
    rcases l with _ | ⟨a1, _ | ⟨a2, _ | ⟨a3, _ | ⟨a4, _ | ⟨a5, _ | ⟨a6, _ |
      ⟨a7, _ | ⟨a8, rest⟩⟩⟩⟩⟩⟩⟩⟩
    · rfl
    · rfl
    · rfl
    · rfl
    · rfl
    · rfl
    · rfl
    · exact absurd rfl hlen
    · rfl
  refine ⟨hdec, ?_, ?_⟩
  · rw [decodeLabel]
    generalize splitLabel s = l
    intro hlen
    rcases l with _ | ⟨a1, _ | ⟨a2, _ | ⟨a3, _ | ⟨a4, _ | ⟨a5, _ | ⟨a6, _ |
      ⟨a7, _ | ⟨a8, rest⟩⟩⟩⟩⟩⟩⟩⟩
    · simp at hlen
    · simp at hlen
    · simp at hlen
    · simp at hlen
    · simp at hlen
    · simp at hlen
    · simp at hlen
    · exact ⟨(a1, a2, a3, a4, a5, a6, a7), rfl⟩
    · simp at hlen
  · intro names hmem hlen rand funcs lines ends m
    exact buildMapping_error_of_bad rand funcs lines ends names s hmem (hdec hlen) m

/-- Witness for C6: the two-field label `a;b` fails to decode and poisons the
mapping build. -/
theorem c6_seven_fields_witness :
    decodeLabel "a;b" = .error .malformedIdentity ∧
    ∀ rand funcs lines ends m,
      buildMapping rand funcs lines ends ["a;b"] ≠ .ok m :=
  ⟨(c6_seven_fields "a;b").1 (by decide),
   fun rand funcs lines ends m =>
     (c6_seven_fields "a;b").2.2 ["a;b"] (by decide) (by decide)
       rand funcs lines ends m⟩

/-- C5: the feature-derived color policy is deterministic: two runs over
event lists with the same set of distinct labels (arbitrary random oracles
and input order) assign identical color values to every label whose decoded
line and column fields are not both `"0"`, because the color is a function
of the decoded `(function, line, endMarker)` and the sorted deduplicated
axis value sets, which depend only on the distinct-label set. -/
theorem c5_color_determinism (rand1 rand2 : String → ℚ × ℚ × ℚ)
    (evs1 evs2 : List TaskEvent) (h : namesSet evs1 = namesSet evs2)
    (m1 m2 : List (String × List ℚ))
    (h1 : fullColorMap rand1 evs1 = .ok m1)
    (h2 : fullColorMap rand2 evs2 = .ok m2)
    (n b1 file func line col b2 e : String)
    (hd : decodeLabel n = .ok (b1, file, func, line, col, b2, e))
    (hnz : ¬(line = "0" ∧ col = "0")) :
    lookupColor n m1 = lookupColor n m2 := by
  have hns : sortedNames evs2 = sortedNames evs1 :=
    (sortStrings_eq_of_toFinset_eq h).symm
  rw [fullColorMap] at h1 h2
  rw [hns] at h2
  cases ha : axesOf (sortedNames evs1) with
  | error err =>
    rw [ha] at h1
    cases h1
  | ok axes =>
    obtain ⟨funcs, lines, ends⟩ := axes
    rw [ha] at h1 h2
    dsimp only at h1 h2
    exact lookupColor_rand_irrel rand1 rand2 funcs lines ends n
      (colorFor_rand_irrel rand1 rand2 funcs lines ends n b1 file func line col b2 e hd hnz)
      (sortedNames evs1) m1 m2 h1 h2

/-- Witness for C5: two runs over the same two labels in opposite input
order, with different random oracles; the label with a real source location
gets the same color in both mappings. -/
theorem c5_color_determinism_witness :
    lookupColor ";f;g;1;2;;5"
        [(";f;g;1;2;;5", get_color ["g", "h"] [0, 1] [5, 6] "g" 1 5),
         (";f;h;0;0;;6", [0, 0, 1])] =
      lookupColor ";f;g;1;2;;5"
        [(";f;g;1;2;;5", get_color ["g", "h"] [0, 1] [5, 6] "g" 1 5),
         (";f;h;0;0;;6", [1, 0, 0])] :=
  c5_color_determinism (fun _ => (0, 0, 1)) (fun _ => (1, 0, 0))
    [⟨1, 0, 10, ";f;g;1;2;;5"⟩, ⟨2, 3, 4, ";f;h;0;0;;6"⟩]
    [⟨2, 3, 4, ";f;h;0;0;;6"⟩, ⟨1, 0, 10, ";f;g;1;2;;5"⟩]
    (by decide)
    [(";f;g;1;2;;5", get_color ["g", "h"] [0, 1] [5, 6] "g" 1 5),
     (";f;h;0;0;;6", [0, 0, 1])]
    [(";f;g;1;2;;5", get_color ["g", "h"] [0, 1] [5, 6] "g" 1 5),
     (";f;h;0;0;;6", [1, 0, 0])]
    rfl rfl ";f;g;1;2;;5" "" "f" "g" "1" "2" "" "5" rfl (by decide)

/-- C10: when parsing and color assignment both succeed, the mapping keys are
exactly the sorted distinct labels of the parsed events, and every parsed
label of every event has a color in the mapping, so the per-segment lookup
`mapping[event.label]` in the chart builder is always defined. -/
theorem c10_mapping_total (rows : List Row) (rand : String → ℚ × ℚ × ℚ)
    (evs : List TaskEvent) (m : List (String × List ℚ))
    (h1 : datapoints rows = .ok evs) (h2 : fullColorMap rand evs = .ok m) :
    m.map Prod.fst = sortedNames evs ∧
    ∀ ev ∈ evs, ∃ c, lookupColor ev.label m = some c := by
  rw [fullColorMap] at h2
  cases ha : axesOf (sortedNames evs) with
  | error err =>
    rw [ha] at h2
    cases h2
  | ok axes =>
    obtain ⟨funcs, lines, ends⟩ := axes
    rw [ha] at h2
    dsimp only at h2
    refine ⟨buildMapping_keys rand funcs lines ends _ m h2, fun ev hev => ?_⟩
    exact lookupColor_isSome_of_mem rand funcs lines ends _ m h2 ev.label
      (mem_sortedNames_of_mem evs ev hev)

/-- Witness for C10: a one-row trace whose single label is a key of the
produced mapping. -/
theorem c10_mapping_total_witness :
    ([((";f;g;0;0;;5" : String), ([0, 1, 0] : List ℚ))].map Prod.fst =
      sortedNames [⟨1, 0, 10, ";f;g;0;0;;5"⟩]) ∧
    ∀ ev ∈ ([⟨1, 0, 10, ";f;g;0;0;;5"⟩] : List TaskEvent),
      ∃ c, lookupColor ev.label [(";f;g;0;0;;5", [0, 1, 0])] = some c :=
  c10_mapping_total [["taskdebug", "1", "0", "10", "", ";f;g;0;0;;5"]]
    (fun _ => (0, 1, 0)) [⟨1, 0, 10, ";f;g;0;0;;5"⟩]
    [(";f;g;0;0;;5", [0, 1, 0])] rfl rfl

/-- C9 (amended): every feature-derived mapping value is an RGBA quadruple
with four components whose last (alpha) component is `1.0`; but the
random-fallback values are bare RGB triples with three components and no
alpha channel. -/
theorem c9_alpha_channel (rand : String → ℚ × ℚ × ℚ)
    (funcs : List String) (lines ends : List Int) :
    ∀ (names : List String) (m : List (String × List ℚ)),
      buildMapping rand funcs lines ends names = .ok m →
      ∀ p, p ∈ m →
      ∃ b1 file func line col b2 e,
        decodeLabel p.1 = .ok (b1, file, func, line, col, b2, e) ∧
        ((line = "0" ∧ col = "0" ∧
            p.2 = [(rand p.1).1, (rand p.1).2.1, (rand p.1).2.2] ∧
            p.2.length = 3) ∨
         (¬(line = "0" ∧ col = "0") ∧ p.2.length = 4 ∧ p.2.getLast? = some 1))
  | [], m, hok, p, hp => by
    cases hok
    cases hp
  | n2 :: ns, m, hok, p, hp => by
    rw [buildMapping] at hok
    cases hc : colorFor rand funcs lines ends n2 with
    | error err =>
      rw [hc] at hok
      cases hok
    | ok c =>
      rw [hc] at hok
      cases hb : buildMapping rand funcs lines ends ns with
      | error err =>
        rw [hb] at hok
        cases hok
      | ok rest =>
        rw [hb] at hok
        injection hok with hok
        subst hok
        rcases List.mem_cons.mp hp with rfl | hp2
        · rw [colorFor] at hc
          cases hd : decodeLabel n2 with
          | error err =>
            rw [hd] at hc
            cases hc
          | ok t =>
            obtain ⟨b1, file, func, line, col, b2, e⟩ := t
            rw [hd] at hc
            dsimp only at hc
            refine ⟨b1, file, func, line, col, b2, e, rfl, ?_⟩
            by_cases hz : line = "0" ∧ col = "0"
            · rw [if_pos hz] at hc
              injection hc with hc
              exact Or.inl ⟨hz.1, hz.2, hc.symm, by rw [← hc]; rfl⟩
            · rw [if_neg hz] at hc
              cases hli : intOf line with
              | error err =>
                rw [hli] at hc
                cases hc
              | ok li =>
                rw [hli] at hc
                cases hei : intOf e with
                | error err =>
                  rw [hei] at hc
                  cases hc
                | ok ei =>
                  rw [hei] at hc
                  injection hc with hc
                  refine Or.inr ⟨hz, ?_, ?_⟩
                  · rw [← hc]
                    rfl
                  · rw [← hc]
                    rfl
        · exact c9_alpha_channel rand funcs lines ends ns rest hb p hp2

/-- Witness for C9 (amended): a mapping with one random-fallback entry. -/
theorem c9_alpha_channel_witness :
    ∃ b1 file func line col b2 e,
      decodeLabel ((";f;g;0;0;;5", ([0, 1, 0] : List ℚ)).1 : String) =
        .ok (b1, file, func, line, col, b2, e) ∧
      ((line = "0" ∧ col = "0" ∧
          ((";f;g;0;0;;5", ([0, 1, 0] : List ℚ)).2 =
            [((fun _ : String => ((0 : ℚ), (1 : ℚ), (0 : ℚ)))
                (";f;g;0;0;;5", ([0, 1, 0] : List ℚ)).1).1,
             ((fun _ : String => ((0 : ℚ), (1 : ℚ), (0 : ℚ)))
                (";f;g;0;0;;5", ([0, 1, 0] : List ℚ)).1).2.1,
             ((fun _ : String => ((0 : ℚ), (1 : ℚ), (0 : ℚ)))
                (";f;g;0;0;;5", ([0, 1, 0] : List ℚ)).1).2.2]) ∧
          ((";f;g;0;0;;5", ([0, 1, 0] : List ℚ)).2.length = 3)) ∨
       (¬(line = "0" ∧ col = "0") ∧
          ((";f;g;0;0;;5", ([0, 1, 0] : List ℚ)).2.length = 4) ∧
          ((";f;g;0;0;;5", ([0, 1, 0] : List ℚ)).2.getLast? = some 1))) :=
  c9_alpha_channel (fun _ => (0, 1, 0)) ["g"] [0] [5] [";f;g;0;0;;5"]
    [(";f;g;0;0;;5", [0, 1, 0])] rfl (";f;g;0;0;;5", [0, 1, 0]) (by decide)

/-- Counterexample for C9 as stated: on a concrete run containing one
unknown-location label, the produced mapping has a value that is not a
four-component RGBA at all (it is the bare three-component random draw),
so not every mapping value contains an alpha component. -/
theorem c9_counterexample :
    fullColorMap (fun _ => (0, 1, 0)) [⟨1, 0, 10, ";f;g;0;0;;5"⟩] =
      .ok [(";f;g;0;0;;5", [0, 1, 0])] ∧
    ¬ ∀ p ∈ [((";f;g;0;0;;5" : String), ([0, 1, 0] : List ℚ))],
        p.2.length = 4 :=
  ⟨rfl, by decide⟩

/-- C2: because the events are sorted by the exact key they are then
partitioned on, every distinct `(workerId, label)` key forms exactly one
group: the group keys are pairwise distinct (no key appears as two separate
groups), and the worker ids of the group sequence are weakly increasing (so
the same worker id never yields two non-adjacent groups). -/
theorem c2_one_group_per_key (evs : List TaskEvent) :
    ((groups evs).map Prod.fst).Nodup ∧
    ((groups evs).map (fun g => g.1.1)).Sorted (fun a b => a ≤ b) := by
  have hchain : List.Chain' keyLT ((groups evs).map Prod.fst) :=
    chain_groupRuns_keys _ (List.sorted_insertionSort evLE evs)
  have hp : ((groups evs).map Prod.fst).Pairwise keyLT :=
    List.chain'_iff_pairwise.mp hchain
  constructor
  · exact hp.imp (fun h => keyLT_ne _ _ h)
  · have hp2 : (groups evs).Pairwise (fun g1 g2 => keyLT g1.1 g2.1) :=
      List.pairwise_map.mp hp
    exact List.pairwise_map.mpr (hp2.imp (fun h => workerId_le_of_keyLT h))

/-- Witness for C7: a `taskdebug` row whose worker-id field is not an
integer. -/
theorem c7_malformed_fatal_witness :
    (∃ e, datapoints [["taskdebug", "z", "100", "200", "0", "x"]] = .error e) ∧
    ∀ evs, datapoints [["taskdebug", "z", "100", "200", "0", "x"]] ≠ .ok evs :=
  c7_malformed_fatal _ ["taskdebug", "z", "100", "200", "0", "x"]
    (List.mem_singleton.mpr rfl) (by decide) .malformedRecord rfl

/-- C3: the rank-normalization function `perc` returns `index(v) / (count-1)`
when the sorted deduplicated value list for the axis has more than one
element, and the fixed constant `0.1` when it is a singleton; for every
element of the list the denominator is nonzero and the result lies in
`[0, 1]`. -/
theorem c3_rank_normalization {α : Type} [DecidableEq α] (a : α) (aa : List α)
    (h : a ∈ aa) :
    (aa.length = 1 → perc a aa = 1/10) ∧
    (aa.length ≠ 1 →
      ((aa.length : ℚ) - 1 ≠ 0 ∧
        perc a aa = (aa.indexOf a : ℚ) / ((aa.length : ℚ) - 1))) ∧
    0 ≤ perc a aa ∧ perc a aa ≤ 1 := by
  have hlen : 0 < aa.length := List.length_pos.mpr (List.ne_nil_of_mem h)
  by_cases h1 : aa.length = 1
  · refine ⟨fun _ => by simp [perc, h1], fun hc => absurd h1 hc, ?_, ?_⟩
    · rw [perc, if_pos h1]
      norm_num
    · rw [perc, if_pos h1]
      norm_num
  · have h2 : 2 ≤ aa.length := by omega
    have hidx : aa.indexOf a < aa.length := List.indexOf_lt_length.mpr h
    have hden : (0 : ℚ) < (aa.length : ℚ) - 1 := by
      have hq : (2 : ℚ) ≤ (aa.length : ℚ) := by exact_mod_cast h2
      linarith
    have hperc : perc a aa = (aa.indexOf a : ℚ) / ((aa.length : ℚ) - 1) := by
      rw [perc, if_neg h1]
    refine ⟨fun hc => absurd hc h1, fun _ => ⟨ne_of_gt hden, hperc⟩, ?_, ?_⟩
    · rw [hperc]
      positivity
    · rw [hperc, div_le_one hden]
      have hq : (aa.indexOf a : ℚ) + 1 ≤ (aa.length : ℚ) := by exact_mod_cast hidx
      linarith

/-- Witness for C3: the middle element of a three-element axis. -/
theorem c3_rank_normalization_witness :
    ((["f", "g", "h"] : List String).length = 1 →
      perc ("g" : String) ["f", "g", "h"] = 1/10) ∧
    ((["f", "g", "h"] : List String).length ≠ 1 →
      (((["f", "g", "h"] : List String).length : ℚ) - 1 ≠ 0 ∧
        perc ("g" : String) ["f", "g", "h"] =
          ((["f", "g", "h"] : List String).indexOf "g" : ℚ) /
            (((["f", "g", "h"] : List String).length : ℚ) - 1))) ∧
    0 ≤ perc ("g" : String) ["f", "g", "h"] ∧
    perc ("g" : String) ["f", "g", "h"] ≤ 1 :=
  c3_rank_normalization "g" ["f", "g", "h"] (by decide)

/-- C8: for every drawn sub-row, the fractional offset
`names.index(name) / (len(names)*4)` is at least `0` and strictly below
`1/4`, so a bar of height `0.75` placed at `rowIndex + offset` stays
strictly inside the unit band `[rowIndex, rowIndex + 1)`. -/
theorem c8_subrow_offset (names : List String) (name : String)
    (h : name ∈ names) :
    0 ≤ subRowOffset names name ∧
    subRowOffset names name < 1/4 ∧
    ∀ rowIndex : ℚ,
      rowIndex ≤ rowIndex + subRowOffset names name ∧
      rowIndex + subRowOffset names name + barHeight < rowIndex + 1 := by
  have hlen : 0 < names.length := List.length_pos.mpr (List.ne_nil_of_mem h)
  have hidx : names.indexOf name < names.length := List.indexOf_lt_length.mpr h
  have hlq : (1 : ℚ) ≤ (names.length : ℚ) := by exact_mod_cast hlen
  have hden : (0 : ℚ) < (names.length : ℚ) * 4 := by linarith
  have h0 : 0 ≤ subRowOffset names name := by
    unfold subRowOffset
    positivity
  have hlt : subRowOffset names name < 1/4 := by
    unfold subRowOffset
    rw [div_lt_iff₀ hden]
    have hq : (names.indexOf name : ℚ) + 1 ≤ (names.length : ℚ) := by exact_mod_cast hidx
    linarith
  refine ⟨h0, hlt, fun rowIndex => ⟨by linarith, ?_⟩⟩
  have hb : barHeight = 3/4 := rfl
  rw [hb]
  linarith

/-- Witness for C8: the second of two task names. -/
theorem c8_subrow_offset_witness :
    0 ≤ subRowOffset ["a", "b"] "b" ∧
    subRowOffset ["a", "b"] "b" < 1/4 ∧
    ∀ rowIndex : ℚ,
      rowIndex ≤ rowIndex + subRowOffset ["a", "b"] "b" ∧
      rowIndex + subRowOffset ["a", "b"] "b" + barHeight < rowIndex + 1 :=
  c8_subrow_offset ["a", "b"] "b" (by decide)

end Timetable
